import Mathlib

/-!
Verification of the rssbot feed-polling core against its specification.

The file shallowly embeds the Rust code of src/main.rs (the CLI validators
check_interval and parse_human_size, the proxy initialisation init_proxy and
the startup control flow of main) as executable Lean definitions, and models
the parts of the core whose source files (fetcher.rs, data.rs, feed.rs) are
not included: those definitions carry a doc comment starting with
`Modelled from the spec:`.

Machine integers are embedded as Nat with explicit bounds (u32 and u64
parsing refuses values above the corresponding maximum, multiplication that
may overflow is reduced modulo 2^64, matching release-mode wrapping).
Rust strings are embedded as Lean String / List Char.
-/

/-! ## Character-level helpers (ASCII facts used by the embeddings) -/

/-- The maximal value of a Rust u32. -/
def U32_MAX : Nat := 4294967295

/-- The maximal value of a Rust u64. -/
def U64_MAX : Nat := 18446744073709551615

/-- Rust char::is_ascii_digit: the character is one of 0123456789. -/
def isAsciiDigit (c : Char) : Bool := decide (48 ≤ c.toNat ∧ c.toNat ≤ 57)

/-- Rust char::is_whitespace (the Unicode White_Space property), used by
str::trim.  The set is the full Unicode 15 White_Space list. -/
def isRustWhitespace (c : Char) : Bool :=
  decide (c.toNat ∈
    [9, 10, 11, 12, 13, 32, 133, 160, 5760, 8192, 8193, 8194, 8195, 8196,
     8197, 8198, 8199, 8200, 8201, 8202, 8232, 8233, 8239, 8287, 12288])

/-- Value of a big-endian list of ASCII digit characters. -/
def digitsToNat (l : List Char) : Nat :=
  l.foldl (fun a c => a * 10 + (c.toNat - 48)) 0

/-- Embeds Rust str::parse for an unsigned integer type with maximal value
`bound` (core's from_str_radix at radix 10): an optional leading plus sign,
then one or more ASCII digits, and the value must not exceed `bound`.
`none` embeds every ParseIntError (empty input, invalid digit, overflow). -/
def rustParseUnsigned (bound : Nat) (l : List Char) : Option Nat :=
  let ds := match l with
    | c :: rest => if c = '+' then rest else l
    | [] => l
  if ds.isEmpty then none
  else if ds.all isAsciiDigit then
    if digitsToNat ds ≤ bound then some (digitsToNat ds) else none
  else none

/-! ## check_interval (src/main.rs lines 96-104) -/

/-- Embeds check_interval: parse the string as a u32, reject values below 1.
The error payload of the source is the ParseIntError rendered to a string;
only its presence matters here. -/
def check_interval (s : String) : Except String Unit :=
  match rustParseUnsigned U32_MAX s.data with
  | none => Except.error "parse error"
  | some r => if r < 1 then Except.error "must >= 1" else Except.ok ()

/-! ## parse_human_size (src/main.rs lines 106-120) -/

/-- The error cases of parse_human_size: a numeric ParseIntError propagated
by the question-mark operator, the invalid-size-character error (carrying
the offending lowercased character), and the empty-size error. -/
inductive SizeError where
  | parseErr : SizeError
  | invalidChar : Char → SizeError
  | empty : SizeError
deriving DecidableEq

/-- Embeds str::trim on a character list. -/
def trimChars (l : List Char) : List Char :=
  ((l.dropWhile isRustWhitespace).reverse.dropWhile isRustWhitespace).reverse

/-- The predicate of the trim_end_matches call: the character is B or b. -/
def isBb (c : Char) : Bool := c = 'B' || c = 'b'

/-- Embeds str::trim_end_matches(|x| x == 'B' || x == 'b'). -/
def stripTrailingBb (l : List Char) : List Char :=
  (l.reverse.dropWhile isBb).reverse

/-- The preprocessed input of parse_human_size:
`s.trim().trim_end_matches(|x| x == 'B' || x == 'b')` (line 109). -/
def phsCore (l : List Char) : List Char := stripTrailingBb (trimChars l)

/-- The unit base of parse_human_size (1024). -/
def BASE : Nat := 1024

/-- Release-mode wrapping of a u64 product. -/
def u64Wrap (n : Nat) : Nat := n % (U64_MAX + 1)

/-- The match of parse_human_size on the last character of the preprocessed
input, lowercased (lines 110-119).  Literal-pattern match arms of the source
become an equality chain, tried in the source's order. -/
def phsMatch (s : List Char) : Except SizeError Nat :=
  match s.getLast? with
  | none => Except.error SizeError.empty
  | some c =>
    let x := Char.toLower c
    if x = 'b' then
      match rustParseUnsigned U64_MAX s.dropLast with
      | some v => Except.ok v
      | none => Except.error SizeError.parseErr
    else if x = 'k' then
      match rustParseUnsigned U64_MAX s.dropLast with
      | some v => Except.ok (u64Wrap (v * BASE))
      | none => Except.error SizeError.parseErr
    else if x = 'm' then
      match rustParseUnsigned U64_MAX s.dropLast with
      | some v => Except.ok (u64Wrap (v * BASE ^ 2))
      | none => Except.error SizeError.parseErr
    else if x = 'g' then
      match rustParseUnsigned U64_MAX s.dropLast with
      | some v => Except.ok (u64Wrap (v * BASE ^ 3))
      | none => Except.error SizeError.parseErr
    else if x = 't' then
      match rustParseUnsigned U64_MAX s.dropLast with
      | some v => Except.ok (u64Wrap (v * BASE ^ 4))
      | none => Except.error SizeError.parseErr
    else if isAsciiDigit x then
      match rustParseUnsigned U64_MAX s with
      | some v => Except.ok v
      | none => Except.error SizeError.parseErr
    else Except.error (SizeError.invalidChar x)

/-- Embeds parse_human_size (lines 106-120). -/
def parse_human_size (s : String) : Except SizeError Nat :=
  phsMatch (phsCore s.data)

/-- The unit-suffix characters recognised by parse_human_size, with the
multiplier each one applies. -/
def unitChars : List (Char × Nat) :=
  [('k', BASE), ('K', BASE), ('m', BASE ^ 2), ('M', BASE ^ 2),
   ('g', BASE ^ 3), ('G', BASE ^ 3), ('t', BASE ^ 4), ('T', BASE ^ 4)]

/-! ## init_proxy (src/main.rs lines 173-184) -/

/-- The possible outcomes of init_proxy: no proxy configured, a proxy built
from the given URI string, or the panic on an illegal HTTPS_PROXY value. -/
inductive ProxyInit where
  | noProxy : ProxyInit
  | proxy : String → ProxyInit
  | panicked : ProxyInit
deriving DecidableEq

/-- Embeds init_proxy.  The process environment is a map from variable name
to value (env::var, with both variants treated through Option), and the
TryInto Uri conversion is an abstract validity predicate on the string. -/
def init_proxy (env : String → Option String) (validUri : String → Bool) :
    ProxyInit :=
  match (env "HTTPS_PROXY").orElse (fun _ => env "https_proxy") with
  | none => ProxyInit.noProxy
  | some uri => if validUri uri then ProxyInit.proxy uri else ProxyInit.panicked

/-! ## The startup control flow of main (src/main.rs lines 122-162) -/

/-- The startup errors main can return: a Database::open failure (line 127),
the get_me bootstrap failure (lines 135-139), and an invalid max_feed_size
(line 145).  Each aborts main with an Err before the event loop starts. -/
inductive MainError where
  | dbOpen : String → MainError
  | getMe : String → MainError
  | invalidMaxFeedSize : SizeError → MainError
deriving DecidableEq

/-- The state reached when startup succeeds and serving begins (the
fetcher, gardener and event loop are started). -/
structure Serving where
  maxFeedSize : Nat
deriving DecidableEq

/-- Embeds the sequencing of main: Database::open, then get_me, then
parse_human_size of max_feed_size; the first failure aborts with Err, as the
question-mark operator and the context calls do in the source.  The outcomes
of the two effectful collaborator calls are parameters. -/
def main_flow (dbOpen : Except String Unit) (getMe : Except String Unit)
    (maxFeedSize : String) : Except MainError Serving :=
  match dbOpen with
  | Except.error e => Except.error (MainError.dbOpen e)
  | Except.ok _ =>
    match getMe with
    | Except.error e => Except.error (MainError.getMe e)
    | Except.ok _ =>
      match parse_human_size maxFeedSize with
      | Except.error e => Except.error (MainError.invalidMaxFeedSize e)
      | Except.ok sz => Except.ok ⟨sz⟩

/-- The process exit code produced by a Rust main returning
anyhow::Result: 0 on Ok, nonzero on Err (the Termination instance). -/
def process_exit_code (r : Except MainError Serving) : Nat :=
  match r with
  | Except.ok _ => 0
  | Except.error _ => 1

/-! ## The interval-adaptation arithmetic of the Scheduler -/

/-- Modelled from the spec: fetcher.rs is not under src/.  The outcome of
one fetch cycle of a feed: new entries found, success with zero new entries
(including a Not-Modified response and an empty body), or a fetch/parse
error. -/
inductive FetchOutcome where
  | newEntries : FetchOutcome
  | noNewEntries : FetchOutcome
  | fetchError : FetchOutcome
deriving DecidableEq

/-- Modelled from the spec: fetcher.rs is not under src/.  Shrink on new
entries: interval = max(min_interval, interval / 2). -/
def shrink_interval (minInterval i : ℚ) : ℚ := max minInterval (i / 2)

/-- Modelled from the spec: fetcher.rs is not under src/.  Grow on a
success with zero new entries: interval = min(max_interval, interval * 1.2). -/
def grow_on_success (maxInterval i : ℚ) : ℚ := min maxInterval (i * (12 / 10))

/-- Modelled from the spec: fetcher.rs is not under src/.  Grow on a fetch
or parse error: interval = min(max_interval, interval * 2). -/
def grow_on_error (maxInterval i : ℚ) : ℚ := min maxInterval (i * 2)

/-- Modelled from the spec: the single interval update the Scheduler
performs after a fetch cycle, by outcome. -/
def step_interval (minInterval maxInterval : ℚ) (o : FetchOutcome) (i : ℚ) :
    ℚ :=
  match o with
  | FetchOutcome.newEntries => shrink_interval minInterval i
  | FetchOutcome.noNewEntries => grow_on_success maxInterval i
  | FetchOutcome.fetchError => grow_on_error maxInterval i

/-- Modelled from the spec: the feed's interval along a whole execution,
i.e. after any sequence of fetch outcomes. -/
def run_intervals (minInterval maxInterval i0 : ℚ)
    (os : List FetchOutcome) : ℚ :=
  os.foldl (fun i o => step_interval minInterval maxInterval o i) i0

/-! ## Entry fingerprints and dedup -/

/-- Modelled from the spec: feed.rs/fetcher.rs are not under src/.  A
parsed feed entry: optional id, optional link, title, optional published
date. -/
structure Entry where
  id : Option String
  link : Option String
  title : String
  published : Option String
deriving DecidableEq

/-- Modelled from the spec: the stable fingerprint of an entry.  The
injective constructor titleDateHash stands for the stable hash of
title+published-date. -/
inductive Fingerprint where
  | byId : String → Fingerprint
  | byLink : String → Fingerprint
  | titleDateHash : String → Option String → Fingerprint
deriving DecidableEq

/-- Modelled from the spec: derive the fingerprint from the entry id,
falling back to its link, falling back to the hash of
title+published-date, in that priority order. -/
def fingerprint (e : Entry) : Fingerprint :=
  match e.id with
  | some i => Fingerprint.byId i
  | none =>
    match e.link with
    | some l => Fingerprint.byLink l
    | none => Fingerprint.titleDateHash e.title e.published

/-- Modelled from the spec: the entries of a parsed list whose fingerprint
is absent from the stored fingerprint set are reported as new. -/
def new_entries (stored : List Fingerprint) (entries : List Entry) :
    List Entry :=
  entries.filter (fun e => !(decide (fingerprint e ∈ stored)))

/-! ## The Store and its persistence -/

/-- Modelled from the spec: data.rs is not under src/.  A Feed record:
title, link, cache validators, fingerprint set, interval, error count,
next-fetch time, subscribers. -/
structure Feed where
  title : String
  link : String
  etag : Option String
  lastModified : Option String
  fingerprints : List Fingerprint
  interval : Nat
  errorCount : Nat
  nextFetch : Nat
  subscribers : List Int
deriving DecidableEq

/-- Modelled from the spec: a Chat record holds the set of subscribed feed
urls. -/
structure ChatRecord where
  feedUrls : List String
deriving DecidableEq

/-- Modelled from the spec: the Store state, the Feed map (keyed by
canonical url) and the Chat map (keyed by chat id). -/
structure Store where
  feeds : List (String × Feed)
  chats : List (Int × ChatRecord)
deriving DecidableEq

/-- The character of an ASCII decimal digit. -/
def digitChar (d : Nat) : Char := Char.ofNat (48 + d)

/-- Decimal digit characters of a Nat, most significant digit first. -/
def natChars (n : Nat) : List Char :=
  if 0 < n then (Nat.digits 10 n).reverse.map digitChar else ['0']

/-- Encoded Nat: decimal digits closed by a semicolon. -/
def encNat (n : Nat) : List Char := natChars n ++ [';']

/-- Parse an encoded Nat, returning the value and the remaining input. -/
def parseNat (l : List Char) : Option (Nat × List Char) :=
  let ds := l.takeWhile isAsciiDigit
  if ds.isEmpty then none
  else
    match l.dropWhile isAsciiDigit with
    | c :: r => if c = ';' then some (digitsToNat ds, r) else none
    | [] => none

/-- Encoded Int: a sign character followed by the encoded absolute value. -/
def encInt (i : Int) : List Char :=
  (if 0 ≤ i then '+' else '-') :: encNat i.natAbs

/-- Parse an encoded Int. -/
def parseInt (l : List Char) : Option (Int × List Char) :=
  match l with
  | c :: r =>
    if c = '-' then (parseNat r).bind (fun p => some (-(p.1 : Int), p.2))
    else if c = '+' then (parseNat r).bind (fun p => some ((p.1 : Int), p.2))
    else none
  | [] => none

/-- Encoded String: its character count, then the raw characters (no
escaping is needed because the count delimits the payload). -/
def encString (s : String) : List Char := encNat s.data.length ++ s.data

/-- Parse an encoded String. -/
def parseString (l : List Char) : Option (String × List Char) :=
  (parseNat l).bind (fun p =>
    if p.1 ≤ p.2.length then some (String.mk (p.2.take p.1), p.2.drop p.1)
    else none)

/-- Encoded Option: tag N for none, tag S followed by the payload. -/
def encOption {α : Type} (enc : α → List Char) : Option α → List Char
  | none => ['N']
  | some a => 'S' :: enc a

/-- Parse an encoded Option. -/
def parseOption {α : Type} (p : List Char → Option (α × List Char))
    (l : List Char) : Option (Option α × List Char) :=
  match l with
  | c :: r =>
    if c = 'N' then some (none, r)
    else if c = 'S' then (p r).bind (fun q => some (some q.1, q.2))
    else none
  | [] => none

/-- Encoded list: its length, then the encoded elements in order. -/
def encListOf {α : Type} (enc : α → List Char) (xs : List α) : List Char :=
  encNat xs.length ++ xs.foldr (fun a acc => enc a ++ acc) []

/-- Parse a known count of encoded elements. -/
def parseCount {α : Type} (p : List Char → Option (α × List Char)) :
    Nat → List Char → Option (List α × List Char)
  | 0, l => some ([], l)
  | n + 1, l =>
    (p l).bind (fun a =>
      (parseCount p n a.2).bind (fun q => some (a.1 :: q.1, q.2)))

/-- Parse an encoded list. -/
def parseListOf {α : Type} (p : List Char → Option (α × List Char))
    (l : List Char) : Option (List α × List Char) :=
  (parseNat l).bind (fun p2 => parseCount p p2.1 p2.2)

/-- Encoded pair: both components in order. -/
def encPair {α β : Type} (encA : α → List Char) (encB : β → List Char)
    (x : α × β) : List Char :=
  encA x.1 ++ encB x.2

/-- Parse an encoded pair. -/
def parsePair {α β : Type} (pA : List Char → Option (α × List Char))
    (pB : List Char → Option (β × List Char)) (l : List Char) :
    Option ((α × β) × List Char) :=
  (pA l).bind (fun a => (pB a.2).bind (fun b => some ((a.1, b.1), b.2)))

/-- Encoded Fingerprint: a tag character and the payload. -/
def encFingerprint : Fingerprint → List Char
  | Fingerprint.byId s => 'I' :: encString s
  | Fingerprint.byLink s => 'L' :: encString s
  | Fingerprint.titleDateHash t p => 'H' :: (encString t ++ encOption encString p)

/-- Parse an encoded Fingerprint. -/
def parseFingerprint (l : List Char) : Option (Fingerprint × List Char) :=
  match l with
  | c :: r =>
    if c = 'I' then (parseString r).bind (fun q => some (Fingerprint.byId q.1, q.2))
    else if c = 'L' then (parseString r).bind (fun q => some (Fingerprint.byLink q.1, q.2))
    else if c = 'H' then
      (parseString r).bind (fun t =>
        (parseOption parseString t.2).bind (fun p =>
          some (Fingerprint.titleDateHash t.1 p.1, p.2)))
    else none
  | [] => none

/-- Encoded Feed: all fields in declaration order. -/
def encFeed (f : Feed) : List Char :=
  encString f.title ++ encString f.link ++ encOption encString f.etag ++
  encOption encString f.lastModified ++
  encListOf encFingerprint f.fingerprints ++
  encNat f.interval ++ encNat f.errorCount ++ encNat f.nextFetch ++
  encListOf encInt f.subscribers

/-- Parse an encoded Feed. -/
def parseFeed (l : List Char) : Option (Feed × List Char) :=
  (parseString l).bind (fun title =>
    (parseString title.2).bind (fun link =>
      (parseOption parseString link.2).bind (fun etag =>
        (parseOption parseString etag.2).bind (fun lastModified =>
          (parseListOf parseFingerprint lastModified.2).bind (fun fps =>
            (parseNat fps.2).bind (fun interval =>
              (parseNat interval.2).bind (fun errorCount =>
                (parseNat errorCount.2).bind (fun nextFetch =>
                  (parseListOf parseInt nextFetch.2).bind (fun subscribers =>
                    some (⟨title.1, link.1, etag.1, lastModified.1, fps.1,
                           interval.1, errorCount.1, nextFetch.1,
                           subscribers.1⟩, subscribers.2))))))))))

/-- Encoded ChatRecord. -/
def encChat (c : ChatRecord) : List Char := encListOf encString c.feedUrls

/-- Parse an encoded ChatRecord. -/
def parseChat (l : List Char) : Option (ChatRecord × List Char) :=
  (parseListOf parseString l).bind (fun urls => some (⟨urls.1⟩, urls.2))

/-- Modelled from the spec: data.rs is not under src/.  Persistence
serializes the Feed map and the Chat map into one structured textual
encoding (the file contents). -/
def persist (s : Store) : List Char :=
  encListOf (encPair encString encFeed) s.feeds ++
  encListOf (encPair encInt encChat) s.chats

/-- Modelled from the spec: data.rs is not under src/.  Loading parses the
file contents back into a Store; a corrupt file (trailing garbage included)
yields none, the fatal startup error. -/
def load (l : List Char) : Option Store :=
  (parseListOf (parsePair parseString parseFeed) l).bind (fun fs =>
    (parseListOf (parsePair parseInt parseChat) fs.2).bind (fun cs =>
      if cs.2.isEmpty then some ⟨fs.1, cs.1⟩ else none))

/-!
# Theorems

Helper lemmas first, then one theorem per claim (with its witness or
counterexample where required).
-/

/-! ### Character facts -/

/-- Char.ofNat of a value below the surrogate range keeps its code point. -/
theorem char_toNat_ofNat {n : Nat} (h : n < 55296) :
    (Char.ofNat n).toNat = n := by
  rw [Char.ofNat, dif_pos (Or.inl h)]
  rfl

/-- The only characters whose ASCII lowercasing is b are b and B. -/
theorem toLower_eq_b {c : Char} (h : Char.toLower c = 'b') :
    c = 'b' ∨ c = 'B' := by
  simp only [Char.toLower] at h
  split at h
  · rename_i hc
    right
    have hv : (Char.ofNat (c.toNat + 32)).toNat = c.toNat + 32 :=
      char_toNat_ofNat (by omega)
    rw [h] at hv
    have hb : Char.toNat 'b' = 98 := by decide
    have h66 : c.toNat = 66 := by omega
    have h2 : Char.ofNat c.toNat = Char.ofNat 66 := by rw [h66]
    rw [Char.ofNat_toNat] at h2
    exact h2.trans (by decide)
  · exact Or.inl h

/-- A digit character is in the 48..57 code-point range. -/
theorem isAsciiDigit_toNat {c : Char} (h : isAsciiDigit c = true) :
    48 ≤ c.toNat ∧ c.toNat ≤ 57 := by
  simpa [isAsciiDigit] using h

/-- Digit characters are not Rust whitespace. -/
theorem digit_not_ws {c : Char} (h : isAsciiDigit c = true) :
    isRustWhitespace c = false := by
  obtain ⟨h1, h2⟩ := isAsciiDigit_toNat h
  simp only [isRustWhitespace, List.mem_cons, List.not_mem_nil, or_false,
    decide_eq_false_iff_not, not_or]
  omega

/-- Digit characters are neither B nor b. -/
theorem digit_not_Bb {c : Char} (h : isAsciiDigit c = true) :
    isBb c = false := by
  cases hb : isBb c with
  | false => rfl
  | true =>
    simp only [isBb, Bool.or_eq_true, decide_eq_true_eq] at hb
    rcases hb with rfl | rfl
    · exact absurd h (by decide)
    · exact absurd h (by decide)

/-- ASCII lowercasing fixes digit characters. -/
theorem digit_toLower {c : Char} (h : isAsciiDigit c = true) :
    Char.toLower c = c := by
  obtain ⟨h1, h2⟩ := isAsciiDigit_toNat h
  simp only [Char.toLower]
  rw [if_neg]
  omega

/-- A digit character is none of the unit letters of parse_human_size. -/
theorem digit_ne_unit {c : Char} (h : isAsciiDigit c = true) :
    c ≠ 'b' ∧ c ≠ 'k' ∧ c ≠ 'm' ∧ c ≠ 'g' ∧ c ≠ 't' := by
  refine ⟨?_, ?_, ?_, ?_, ?_⟩ <;>
    (intro he; subst he; exact absurd h (by decide))

/-! ### dropWhile and trim facts -/

/-- dropWhile is the identity when the head fails the predicate. -/
theorem dropWhile_eq_self_of_head {α : Type} {p : α → Bool} {l : List α}
    (h : ∀ a, l.head? = some a → p a = false) : l.dropWhile p = l := by
  cases l with
  | nil => rfl
  | cons a t => exact List.dropWhile_cons_of_neg (by simp [h a rfl])

/-- dropWhile is the identity when every element fails the predicate. -/
theorem dropWhile_eq_self_of_all {α : Type} {p : α → Bool} {l : List α}
    (h : ∀ a ∈ l, p a = false) : l.dropWhile p = l :=
  dropWhile_eq_self_of_head (fun a ha => h a (List.mem_of_mem_head? ha))

/-- dropWhile empties a list all of whose elements satisfy the predicate. -/
theorem dropWhile_eq_nil_of_all {α : Type} {p : α → Bool} {l : List α}
    (h : ∀ a ∈ l, p a = true) : l.dropWhile p = [] := by
  induction l with
  | nil => rfl
  | cons a t ih =>
    rw [List.dropWhile_cons_of_pos (h a (by simp))]
    exact ih (fun x hx => h x (by simp [hx]))

/-- trim is the identity on whitespace-free input. -/
theorem trimChars_eq_self {l : List Char}
    (h : ∀ a ∈ l, isRustWhitespace a = false) : trimChars l = l := by
  unfold trimChars
  rw [dropWhile_eq_self_of_all h,
    dropWhile_eq_self_of_all (fun a ha => h a (List.mem_reverse.mp ha)),
    List.reverse_reverse]

/-- Stripping trailing B/b characters is the identity without them. -/
theorem stripTrailingBb_eq_self {l : List Char}
    (h : ∀ a ∈ l, isBb a = false) : stripTrailingBb l = l := by
  unfold stripTrailingBb
  rw [dropWhile_eq_self_of_all (fun a ha => h a (List.mem_reverse.mp ha)),
    List.reverse_reverse]

/-- The preprocessing of parse_human_size is the identity on input without
whitespace and without B/b characters. -/
theorem phsCore_eq_self {l : List Char}
    (hw : ∀ a ∈ l, isRustWhitespace a = false)
    (hb : ∀ a ∈ l, isBb a = false) : phsCore l = l := by
  unfold phsCore
  rw [trimChars_eq_self hw, stripTrailingBb_eq_self hb]

/-! ### rustParseUnsigned and phsMatch on digit strings -/

/-- Parsing a nonempty in-range digit string yields its value. -/
theorem rustParseUnsigned_digits {bound : Nat} {l : List Char} (h1 : l ≠ [])
    (h2 : ∀ a ∈ l, isAsciiDigit a = true) (h3 : digitsToNat l ≤ bound) :
    rustParseUnsigned bound l = some (digitsToNat l) := by
  cases l with
  | nil => exact absurd rfl h1
  | cons a t =>
    have ha : isAsciiDigit a = true := h2 a (by simp)
    have hap : a ≠ '+' := by
      intro he
      subst he
      exact absurd ha (by decide)
    have hall : (a :: t).all isAsciiDigit = true := List.all_eq_true.mpr h2
    simp [rustParseUnsigned, if_neg hap, hall, h3]

/-- phsMatch returns the value of a nonempty in-range digit string. -/
theorem phsMatch_digits {l : List Char} (h1 : l ≠ [])
    (h2 : ∀ a ∈ l, isAsciiDigit a = true) (h3 : digitsToNat l ≤ U64_MAX) :
    phsMatch l = Except.ok (digitsToNat l) := by
  obtain ⟨c, hc⟩ : ∃ c, l.getLast? = some c :=
    ⟨l.getLast h1, List.getLast?_eq_getLast l h1⟩
  have hcd : isAsciiDigit c = true := h2 c (List.mem_of_getLast?_eq_some hc)
  obtain ⟨hb, hk, hm, hg, ht⟩ := digit_ne_unit hcd
  unfold phsMatch
  rw [hc]
  simp only [digit_toLower hcd, if_neg hb, if_neg hk, if_neg hm, if_neg hg,
    if_neg ht, if_pos hcd, rustParseUnsigned_digits h1 h2 h3]

/-- phsMatch on a digit string followed by one unit letter multiplies the
value by the unit's multiplier (with u64 wrapping). -/
theorem phsMatch_digit_unit {l : List Char} {u : Char} {m : Nat}
    (h1 : l ≠ []) (h2 : ∀ a ∈ l, isAsciiDigit a = true)
    (h3 : digitsToNat l ≤ U64_MAX) (hu : (u, m) ∈ unitChars) :
    phsMatch (l ++ [u]) = Except.ok (u64Wrap (digitsToNat l * m)) := by
  have hlast : (l ++ [u]).getLast? = some u := List.getLast?_concat l
  have hdl : (l ++ [u]).dropLast = l := List.dropLast_concat
  unfold phsMatch
  rw [hlast, hdl]
  fin_cases hu <;> simp [rustParseUnsigned_digits h1 h2 h3]

/-- The unit tests of src/main.rs (test_parse_human_size, lines 199-205)
hold of the embedding. -/
theorem phs_agrees_with_rust_unit_tests :
    parse_human_size "2M" = Except.ok 2097152 ∧
    parse_human_size "2G" = Except.ok 2147483648 ∧
    parse_human_size "2mb" = Except.ok 2097152 ∧
    parse_human_size "2097152" = Except.ok 2097152 := by
  refine ⟨?_, ?_, ?_, ?_⟩ <;> rfl

/-- A unit letter is neither whitespace nor a B/b character. -/
theorem unit_not_ws_not_Bb {u : Char} {m : Nat} (hu : (u, m) ∈ unitChars) :
    isRustWhitespace u = false ∧ isBb u = false := by
  fin_cases hu <;> exact ⟨by decide, by decide⟩

/-- u64 wrapping is the identity on in-range values. -/
theorem u64Wrap_eq_of_le {n : Nat} (h : n ≤ U64_MAX) : u64Wrap n = n := by
  unfold u64Wrap
  exact Nat.mod_eq_of_lt (by omega)

/-- C6: check_interval accepts a string exactly when it parses as a decimal
u32 (Rust u32::from_str: optional plus sign, ASCII digits, value at most
u32::MAX) whose value is at least 1; it rejects non-numeric strings, values
above u32::MAX, and the string 0, so every accepted interval is at least
1 second. -/
theorem check_interval_ok_iff :
    ∀ s : String,
      (check_interval s = Except.ok () ↔
        ∃ v, rustParseUnsigned U32_MAX s.data = some v ∧ 1 ≤ v) ∧
      check_interval "abc" = Except.error "parse error" ∧
      check_interval "4294967296" = Except.error "parse error" ∧
      check_interval "0" = Except.error "must >= 1" ∧
      check_interval "1" = Except.ok () ∧
      check_interval "4294967295" = Except.ok () := by
  intro s
  refine ⟨?_, by rfl, by rfl, by rfl, by rfl, by rfl⟩
  unfold check_interval
  cases h : rustParseUnsigned U32_MAX s.data with
  | none => simp
  | some r =>
    show (if r < 1 then (Except.error "must >= 1" : Except String Unit)
        else Except.ok ()) = Except.ok () ↔ _
    by_cases hr : r < 1
    · rw [if_pos hr]
      constructor
      · intro he
        exact absurd he (by simp)
      · rintro ⟨v, hv, h1⟩
        obtain rfl := Option.some.inj hv
        omega
    · rw [if_neg hr]
      exact ⟨fun _ => ⟨r, rfl, by omega⟩, fun _ => rfl⟩

/-- C7 counterexample: the 20-digit string 18446744073709551616 (that is,
2^64) consists of ASCII digits only, yet parse_human_size returns the
numeric parse error (u64 overflow) instead of the decimal value. -/
theorem phs_digit_string_overflow_errs :
    (∀ a ∈ "18446744073709551616".data, isAsciiDigit a = true) ∧
    parse_human_size "18446744073709551616" =
      Except.error SizeError.parseErr := by
  exact ⟨by decide, by rfl⟩

/-- C7 (amended): parse_human_size maps every nonempty string of ASCII
digits whose value is at most u64::MAX to its decimal value; a trailing
unit letter k/K, m/M, g/G or t/T multiplies the preceding number by 1024,
1024^2, 1024^3 or 1024^4 when the product is in range (an optional trailing
B/b is stripped beforehand, line 109); in particular 2M gives 2097152 and
2G gives 2147483648. -/
theorem phs_digits_and_units :
    (∀ s : String, s.data ≠ [] → (∀ a ∈ s.data, isAsciiDigit a = true) →
      digitsToNat s.data ≤ U64_MAX →
      parse_human_size s = Except.ok (digitsToNat s.data)) ∧
    (∀ (s : String) (l : List Char) (u : Char) (m : Nat),
      s.data = l ++ [u] → l ≠ [] → (∀ a ∈ l, isAsciiDigit a = true) →
      digitsToNat l ≤ U64_MAX → (u, m) ∈ unitChars →
      digitsToNat l * m ≤ U64_MAX →
      parse_human_size s = Except.ok (digitsToNat l * m)) ∧
    parse_human_size "2M" = Except.ok 2097152 ∧
    parse_human_size "2G" = Except.ok 2147483648 := by
  refine ⟨?_, ?_, by rfl, by rfl⟩
  · intro s hne hdig hle
    unfold parse_human_size
    rw [phsCore_eq_self (fun a ha => digit_not_ws (hdig a ha))
        (fun a ha => digit_not_Bb (hdig a ha))]
    exact phsMatch_digits hne hdig hle
  · intro s l u m hs hne hdig hle hu hprod
    obtain ⟨huw, hub⟩ := unit_not_ws_not_Bb hu
    unfold parse_human_size
    rw [hs]
    have hw : ∀ a ∈ l ++ [u], isRustWhitespace a = false := by
      intro a ha
      rcases List.mem_append.mp ha with h | h
      · exact digit_not_ws (hdig a h)
      · rw [List.mem_singleton.mp h]
        exact huw
    have hb : ∀ a ∈ l ++ [u], isBb a = false := by
      intro a ha
      rcases List.mem_append.mp ha with h | h
      · exact digit_not_Bb (hdig a h)
      · rw [List.mem_singleton.mp h]
        exact hub
    rw [phsCore_eq_self hw hb, phsMatch_digit_unit hne hdig hle hu,
      u64Wrap_eq_of_le hprod]

/-- Witness for C7's amended theorem at the inputs 7 and 3k. -/
theorem phs_digits_and_units_witness :
    parse_human_size "7" = Except.ok 7 ∧
    parse_human_size "3k" = Except.ok 3072 := by
  constructor
  · exact phs_digits_and_units.1 "7" (by decide) (by decide) (by decide)
  · exact phs_digits_and_units.2.1 "3k" ['3'] 'k' BASE rfl (by decide)
      (by decide) (by decide) (by decide) (by decide)

/-- The characters B and b are not whitespace. -/
theorem Bb_not_ws {u : Char} (hu : isBb u = true) :
    isRustWhitespace u = false := by
  simp only [isBb, Bool.or_eq_true, decide_eq_true_eq] at hu
  rcases hu with rfl | rfl <;> decide

/-- A nonempty whitespace-stripped list keeps the original last element. -/
theorem getLast?_dropWhile_of_ne_nil {α : Type} {p : α → Bool} {l : List α}
    (h : l.dropWhile p ≠ []) : (l.dropWhile p).getLast? = l.getLast? := by
  conv_rhs => rw [← List.takeWhile_append_dropWhile p l]
  rw [List.getLast?_append]
  cases hF : (l.dropWhile p).getLast? with
  | none => exact absurd (List.getLast?_eq_none_iff.mp hF) h
  | some d => rfl

/-- Appending one non-whitespace character to any input commutes with trim:
the result is the front-trimmed input plus that character. -/
theorem trimChars_append_of_not_ws {l : List Char} {u : Char}
    (hu : isRustWhitespace u = false) :
    trimChars (l ++ [u]) = l.dropWhile isRustWhitespace ++ [u] := by
  unfold trimChars
  rw [List.dropWhile_append]
  by_cases hF : (l.dropWhile isRustWhitespace).isEmpty
  · rw [if_pos hF]
    have hFe : l.dropWhile isRustWhitespace = [] := List.isEmpty_iff.mp hF
    rw [hFe]
    simp [List.dropWhile_cons, hu]
  · rw [if_neg hF, List.reverse_append]
    simp only [List.reverse_cons, List.reverse_nil, List.nil_append,
      List.singleton_append]
    rw [List.dropWhile_cons_of_neg (by simp [hu])]
    simp

/-- Stripping trailing B/b after appending a B/b character strips it. -/
theorem stripTrailingBb_append_Bb {l : List Char} {u : Char}
    (hu : isBb u = true) :
    stripTrailingBb (l ++ [u]) = stripTrailingBb l := by
  unfold stripTrailingBb
  rw [List.reverse_append]
  simp only [List.reverse_cons, List.reverse_nil, List.nil_append,
    List.singleton_append]
  rw [List.dropWhile_cons_of_pos hu]

/-- When the input does not end in whitespace, trim only trims the front. -/
theorem trimChars_eq_dropWhile_of_last_not_ws {l : List Char}
    (h : ∀ c, l.getLast? = some c → isRustWhitespace c = false) :
    trimChars l = l.dropWhile isRustWhitespace := by
  unfold trimChars
  by_cases hF : l.dropWhile isRustWhitespace = []
  · rw [hF]
    rfl
  · rw [dropWhile_eq_self_of_head ?_, List.reverse_reverse]
    intro a ha
    rw [List.head?_reverse, getLast?_dropWhile_of_ne_nil hF] at ha
    exact h a ha

/-- Appending a B/b character to an input that does not end in whitespace
leaves the preprocessed input unchanged. -/
theorem phsCore_append_Bb {l : List Char} {u : Char} (hu : isBb u = true)
    (h : ∀ c, l.getLast? = some c → isRustWhitespace c = false) :
    phsCore (l ++ [u]) = phsCore l := by
  unfold phsCore
  rw [trimChars_append_of_not_ws (Bb_not_ws hu), stripTrailingBb_append_Bb hu,
    trimChars_eq_dropWhile_of_last_not_ws h]

/-- After preprocessing, the last character never lowercases to b: the
first match arm of parse_human_size is unreachable. -/
theorem phsCore_last_not_Bb (l : List Char) :
    ((phsCore l).getLast?).map Char.toLower ≠ some 'b' := by
  intro hcon
  unfold phsCore stripTrailingBb at hcon
  rw [List.getLast?_reverse] at hcon
  cases hh : ((trimChars l).reverse.dropWhile isBb).head? with
  | none =>
    rw [hh] at hcon
    cases hcon
  | some a =>
    rw [hh] at hcon
    have hba : isBb a = false := by
      have hd := List.head?_dropWhile_not isBb (trimChars l).reverse
      rw [hh] at hd
      exact hd
    have hab : Char.toLower a = 'b' := Option.some.inj hcon
    rcases toLower_eq_b hab with rfl | rfl <;> simp [isBb] at hba

/-- C8 counterexample: appending B to the input consisting of the digit 2
followed by a space changes the result, because trim runs before the B/b
stripping: the input 2-space parses as 2, while 2-space-B keeps the space,
which becomes the invalid size character. -/
theorem phs_push_B_changes_result :
    parse_human_size "2 " = Except.ok 2 ∧
    parse_human_size ("2 ".push 'B') =
      Except.error (SizeError.invalidChar ' ') ∧
    parse_human_size ("2 ".push 'B') ≠ parse_human_size "2 " := by
  refine ⟨by rfl, by rfl, ?_⟩
  intro hcon
  rw [show parse_human_size ("2 ".push 'B') =
      Except.error (SizeError.invalidChar ' ') from rfl,
    show parse_human_size "2 " = Except.ok 2 from rfl] at hcon
  cases hcon

/-- C8 (amended): appending B or b to an input that does not end in
whitespace never changes the result of parse_human_size, and the match arm
for a lowercased last character b is unreachable for every input (the
preprocessed input never ends in B or b). -/
theorem phs_push_Bb_invariant :
    (∀ (s : String) (u : Char), isBb u = true →
      (∀ c, s.data.getLast? = some c → isRustWhitespace c = false) →
      parse_human_size (s.push u) = parse_human_size s) ∧
    (∀ l : List Char, ((phsCore l).getLast?).map Char.toLower ≠ some 'b') := by
  constructor
  · intro s u hu h
    unfold parse_human_size
    rw [String.data_push, phsCore_append_Bb hu h]
  · exact phsCore_last_not_Bb

/-- Witness for C8's amended theorem at the input 2k with B appended. -/
theorem phs_push_Bb_invariant_witness :
    parse_human_size ("2k".push 'B') = parse_human_size "2k" ∧
    ((phsCore "2B".data).getLast?).map Char.toLower ≠ some 'b' := by
  constructor
  · refine phs_push_Bb_invariant.1 "2k" 'B' (by decide) ?_
    intro c hc
    rw [show "2k".data.getLast? = some 'k' from rfl] at hc
    obtain rfl := (Option.some.inj hc).symm
    decide
  · exact phs_push_Bb_invariant.2 "2B".data

/-- C9: parse_human_size returns an error, never a size, on the degenerate
inputs: any input of whitespace only (the empty input included) and any
input of B/b characters only give the empty-size error, and a bare unit
letter or a malformed number before the unit gives the numeric parse
error. -/
theorem phs_errs_on_degenerate_inputs :
    (∀ s : String, (∀ c ∈ s.data, isRustWhitespace c = true) →
      parse_human_size s = Except.error SizeError.empty) ∧
    (∀ s : String, (∀ c ∈ s.data, isBb c = true) →
      parse_human_size s = Except.error SizeError.empty) ∧
    parse_human_size "k" = Except.error SizeError.parseErr ∧
    parse_human_size "2Mk" = Except.error SizeError.parseErr := by
  refine ⟨?_, ?_, by rfl, by rfl⟩
  · intro s h
    unfold parse_human_size phsCore trimChars
    rw [dropWhile_eq_nil_of_all h]
    rfl
  · intro s h
    have hws : ∀ c ∈ s.data, isRustWhitespace c = false :=
      fun c hc => Bb_not_ws (h c hc)
    unfold parse_human_size phsCore
    rw [trimChars_eq_self hws]
    unfold stripTrailingBb
    rw [dropWhile_eq_nil_of_all (fun a ha => h a (List.mem_reverse.mp ha))]
    rfl

/-- Witness for C9 at a whitespace-only and a B/b-only input. -/
theorem phs_errs_on_degenerate_inputs_witness :
    parse_human_size " " = Except.error SizeError.empty ∧
    parse_human_size "Bb" = Except.error SizeError.empty := by
  constructor
  · exact phs_errs_on_degenerate_inputs.1 " " (by decide)
  · exact phs_errs_on_degenerate_inputs.2.1 "Bb" (by decide)

/-- C10: init_proxy yields no proxy exactly when neither HTTPS_PROXY nor
https_proxy is set; when HTTPS_PROXY is set its value decides the outcome
(https_proxy is ignored), and a set but invalid proxy URI panics instead of
falling back to no proxy. -/
theorem init_proxy_spec :
    ∀ (env : String → Option String) (validUri : String → Bool),
      (init_proxy env validUri = ProxyInit.noProxy ↔
        env "HTTPS_PROXY" = none ∧ env "https_proxy" = none) ∧
      (∀ u, env "HTTPS_PROXY" = some u →
        init_proxy env validUri =
          (if validUri u then ProxyInit.proxy u else ProxyInit.panicked)) ∧
      (∀ u, env "HTTPS_PROXY" = some u → validUri u = false →
        init_proxy env validUri = ProxyInit.panicked) := by
  intro env validUri
  have hred : ∀ u, env "HTTPS_PROXY" = some u →
      init_proxy env validUri =
        (if validUri u then ProxyInit.proxy u else ProxyInit.panicked) := by
    intro u hu
    unfold init_proxy
    rw [hu]
    rfl
  refine ⟨?_, hred, fun u hu hv => by rw [hred u hu, if_neg (by simp [hv])]⟩
  constructor
  · intro hn
    cases h1 : env "HTTPS_PROXY" with
    | some u =>
      rw [hred u h1] at hn
      by_cases hv : validUri u <;> simp [hv] at hn
    | none =>
      cases h2 : env "https_proxy" with
      | some u =>
        unfold init_proxy at hn
        rw [h1, h2] at hn
        by_cases hv : validUri u <;> simp [Option.orElse, hv] at hn
      | none => exact ⟨rfl, rfl⟩
  · rintro ⟨h1, h2⟩
    unfold init_proxy
    rw [h1, h2]
    rfl

/-- Witness for C10 with concrete environments: HTTPS_PROXY wins over
https_proxy, and an invalid value panics. -/
theorem init_proxy_spec_witness :
    init_proxy
      (fun k => if k = "HTTPS_PROXY" then some "socks5://a"
        else if k = "https_proxy" then some "socks5://b" else none)
      (fun _ => true) = ProxyInit.proxy "socks5://a" ∧
    init_proxy (fun k => if k = "HTTPS_PROXY" then some "%%%" else none)
      (fun _ => false) = ProxyInit.panicked := by
  constructor
  · exact ((init_proxy_spec
      (fun k => if k = "HTTPS_PROXY" then some "socks5://a"
        else if k = "https_proxy" then some "socks5://b" else none)
      (fun _ => true)).2.1 "socks5://a" (by simp)).trans (by simp)
  · exact (init_proxy_spec
      (fun k => if k = "HTTPS_PROXY" then some "%%%" else none)
      (fun _ => false)).2.2 "%%%" (by simp) rfl

/-- C4: startup failures are fatal: if Database::open fails, main returns
its error; if get_me fails after a successful open, main returns that
error; in both cases the exit code is nonzero, and a Serving value is only
produced when both startup steps succeeded. -/
theorem main_flow_startup_errors :
    ∀ (dbOpen getMe : Except String Unit) (mfs : String),
      (∀ e, dbOpen = Except.error e →
        main_flow dbOpen getMe mfs = Except.error (MainError.dbOpen e) ∧
        process_exit_code (main_flow dbOpen getMe mfs) ≠ 0) ∧
      (∀ e, dbOpen = Except.ok () → getMe = Except.error e →
        main_flow dbOpen getMe mfs = Except.error (MainError.getMe e) ∧
        process_exit_code (main_flow dbOpen getMe mfs) ≠ 0) ∧
      (∀ s, main_flow dbOpen getMe mfs = Except.ok s →
        dbOpen = Except.ok () ∧ getMe = Except.ok ()) := by
  intro d g mfs
  refine ⟨?_, ?_, ?_⟩
  · rintro e rfl
    exact ⟨rfl, by simp [main_flow, process_exit_code]⟩
  · rintro e rfl rfl
    exact ⟨rfl, by simp [main_flow, process_exit_code]⟩
  · intro s hs
    cases d with
    | error e => simp [main_flow] at hs
    | ok u =>
      cases g with
      | error e =>
        cases u
        simp [main_flow] at hs
      | ok v =>
        cases u
        cases v
        exact ⟨rfl, rfl⟩

/-- Witness for C4 at concrete startup failures. -/
theorem main_flow_startup_errors_witness :
    main_flow (Except.error "corrupt state file") (Except.ok ()) "2M" =
      Except.error (MainError.dbOpen "corrupt state file") ∧
    main_flow (Except.ok ()) (Except.error "network unreachable") "2M" =
      Except.error (MainError.getMe "network unreachable") := by
  constructor
  · exact ((main_flow_startup_errors (Except.error "corrupt state file")
      (Except.ok ()) "2M").1 "corrupt state file" rfl).1
  · exact ((main_flow_startup_errors (Except.ok ())
      (Except.error "network unreachable") "2M").2.1
      "network unreachable" rfl rfl).1

/-- C1: with 0 ≤ min_interval ≤ max_interval, each of the Scheduler's
three interval updates (shrink on new entries, grow on a quiet success,
grow on error) maps an in-range interval back into
[min_interval, max_interval], and the interval stays in range along any
sequence of fetch outcomes. -/
theorem interval_invariant :
    ∀ minI maxI : ℚ, 0 ≤ minI → minI ≤ maxI →
      (∀ (o : FetchOutcome) (i : ℚ), minI ≤ i → i ≤ maxI →
        minI ≤ step_interval minI maxI o i ∧
        step_interval minI maxI o i ≤ maxI) ∧
      (∀ (os : List FetchOutcome) (i0 : ℚ), minI ≤ i0 → i0 ≤ maxI →
        minI ≤ run_intervals minI maxI i0 os ∧
        run_intervals minI maxI i0 os ≤ maxI) := by
  intro minI maxI h0 hmm
  have hstep : ∀ (o : FetchOutcome) (i : ℚ), minI ≤ i → i ≤ maxI →
      minI ≤ step_interval minI maxI o i ∧
      step_interval minI maxI o i ≤ maxI := by
    intro o i h1 h2
    have hi0 : (0 : ℚ) ≤ i := le_trans h0 h1
    cases o with
    | newEntries =>
      unfold step_interval shrink_interval
      refine ⟨le_max_left _ _, max_le hmm ?_⟩
      linarith
    | noNewEntries =>
      unfold step_interval grow_on_success
      refine ⟨le_min hmm ?_, min_le_left _ _⟩
      linarith
    | fetchError =>
      unfold step_interval grow_on_error
      refine ⟨le_min hmm ?_, min_le_left _ _⟩
      linarith
  refine ⟨hstep, ?_⟩
  intro os
  induction os with
  | nil =>
    intro i0 h1 h2
    exact ⟨h1, h2⟩
  | cons o t ih =>
    intro i0 h1 h2
    obtain ⟨h1s, h2s⟩ := hstep o i0 h1 h2
    simpa [run_intervals] using ih (step_interval minI maxI o i0) h1s h2s

/-- Witness for C1 at min 60, max 43200, starting interval 300, over one
shrink, one error growth and one quiet-success growth. -/
theorem interval_invariant_witness :
    (60 : ℚ) ≤ run_intervals 60 43200 300
      [FetchOutcome.newEntries, FetchOutcome.fetchError,
       FetchOutcome.noNewEntries] ∧
    run_intervals 60 43200 300
      [FetchOutcome.newEntries, FetchOutcome.fetchError,
       FetchOutcome.noNewEntries] ≤ 43200 :=
  (interval_invariant 60 43200 (by norm_num) (by norm_num)).2
    [FetchOutcome.newEntries, FetchOutcome.fetchError,
     FetchOutcome.noNewEntries] 300 (by norm_num) (by norm_num)

/-- C5: with min_interval 60, a feed at interval 300 that fetches new
entries shrinks to max(60, 300/2) = 150, and a following success with zero
new entries grows it to min(max_interval, 150 * 1.2) = 180 whenever
max_interval is at least 180. -/
theorem interval_scenario_A :
    ∀ maxI : ℚ, 180 ≤ maxI →
      shrink_interval 60 300 = 150 ∧ grow_on_success maxI 150 = 180 := by
  intro maxI h
  constructor
  · unfold shrink_interval
    rw [show (300 : ℚ) / 2 = 150 by norm_num]
    exact max_eq_right (by norm_num)
  · unfold grow_on_success
    rw [show (150 : ℚ) * (12 / 10) = 180 by norm_num]
    exact min_eq_right h

/-- Witness for C5 at the default max_interval 43200. -/
theorem interval_scenario_A_witness :
    shrink_interval 60 300 = 150 ∧ grow_on_success 43200 150 = 180 :=
  interval_scenario_A 43200 (by norm_num)

/-- C2: the entries reported as new are exactly those whose fingerprint
(id, else link, else the title+date hash) is absent from the stored set;
consequently, when a second fetch returns the first fetch's entries plus k
new entries in any order, exactly those k entries are reported. -/
theorem dedup_correct :
    (∀ (stored : List Fingerprint) (entries : List Entry) (e : Entry),
      e ∈ new_entries stored entries ↔
        e ∈ entries ∧ fingerprint e ∉ stored) ∧
    (∀ E1 K E2 : List Entry,
      E2.Perm (E1 ++ K) →
      (∀ e ∈ K, fingerprint e ∉ E1.map fingerprint) →
      (new_entries (E1.map fingerprint) E2).Perm K) := by
  constructor
  · intro stored entries e
    unfold new_entries
    rw [List.mem_filter]
    simp
  · intro E1 K E2 hperm hnew
    unfold new_entries
    have h1 := hperm.filter
      (fun e => !(decide (fingerprint e ∈ E1.map fingerprint)))
    rw [List.filter_append] at h1
    have h2 : E1.filter
        (fun e => !(decide (fingerprint e ∈ E1.map fingerprint))) = [] := by
      rw [List.filter_eq_nil_iff]
      intro a ha
      simp only [Bool.not_eq_true', decide_eq_false_iff_not, not_not]
      exact List.mem_map.mpr ⟨a, ha, rfl⟩
    have h3 : K.filter
        (fun e => !(decide (fingerprint e ∈ E1.map fingerprint))) = K := by
      rw [List.filter_eq_self]
      intro a ha
      simpa using hnew a ha
    rw [h2, h3] at h1
    simpa using h1

/-- Witness for C2: one stored entry, a second fetch returning the new
entry first and the old entry second, reporting exactly the new entry. -/
theorem dedup_correct_witness :
    (⟨some "id1", none, "old", none⟩ : Entry) ∈
      new_entries [] [⟨some "id1", none, "old", none⟩] ∧
    (new_entries
      ((([⟨some "id1", none, "old", none⟩] : List Entry)).map fingerprint)
      [⟨none, some "http://n", "new", some "2021"⟩,
       ⟨some "id1", none, "old", none⟩]).Perm
      [⟨none, some "http://n", "new", some "2021"⟩] := by
  constructor
  · exact (dedup_correct.1 [] [⟨some "id1", none, "old", none⟩]
      ⟨some "id1", none, "old", none⟩).mpr ⟨by simp, by simp⟩
  · exact dedup_correct.2 [⟨some "id1", none, "old", none⟩]
      [⟨none, some "http://n", "new", some "2021"⟩]
      [⟨none, some "http://n", "new", some "2021"⟩,
       ⟨some "id1", none, "old", none⟩] (by decide) (by decide)

/-! ### Round-trip lemmas for the persistence encoding -/

/-- The code point of a digit character. -/
theorem digitChar_toNat {d : Nat} (h : d < 10) :
    (digitChar d).toNat = 48 + d :=
  char_toNat_ofNat (by omega)

/-- Digit characters pass the ASCII-digit test. -/
theorem digitChar_isDigit {d : Nat} (h : d < 10) :
    isAsciiDigit (digitChar d) = true := by
  have ht := digitChar_toNat h
  simp only [isAsciiDigit, decide_eq_true_eq, ht]
  omega

/-- The decimal digit characters of a Nat never form an empty list. -/
theorem natChars_ne_nil (n : Nat) : natChars n ≠ [] := by
  unfold natChars
  split
  · rename_i hn
    simp [Nat.digits_ne_nil_iff_ne_zero]
    omega
  · simp

/-- Every character written for a Nat is a digit. -/
theorem natChars_all_digits (n : Nat) :
    ∀ c ∈ natChars n, isAsciiDigit c = true := by
  unfold natChars
  split
  · intro c hc
    simp only [List.mem_map, List.mem_reverse] at hc
    obtain ⟨d, hd, rfl⟩ := hc
    exact digitChar_isDigit (Nat.digits_lt_base (by norm_num) hd)
  · intro c hc
    rw [List.mem_singleton.mp hc]
    decide

/-- Reading back a digit list written most-significant-first recovers the
little-endian digit value. -/
theorem digitsToNat_rev_map {ds : List Nat} (h : ∀ d ∈ ds, d < 10) :
    digitsToNat (ds.reverse.map digitChar) = Nat.ofDigits 10 ds := by
  induction ds with
  | nil => rfl
  | cons d t ih =>
    have hd : d < 10 := h d (by simp)
    have ht : ∀ x ∈ t, x < 10 := fun x hx => h x (by simp [hx])
    rw [List.reverse_cons, List.map_append]
    unfold digitsToNat
    rw [List.foldl_append]
    have hih := ih ht
    unfold digitsToNat at hih
    rw [hih, Nat.ofDigits_cons]
    simp only [List.map_cons, List.map_nil, List.foldl_cons, List.foldl_nil,
      digitChar_toNat hd]
    omega

/-- Reading back the written decimal digits of a Nat recovers it. -/
theorem digitsToNat_natChars (n : Nat) : digitsToNat (natChars n) = n := by
  unfold natChars
  split
  · rw [digitsToNat_rev_map (fun d hd => Nat.digits_lt_base (by norm_num) hd),
      Nat.ofDigits_digits]
  · rename_i h
    have h0 : n = 0 := by omega
    rw [h0]
    rfl

/-- Parsing an encoded Nat returns it and the rest of the input. -/
theorem parseNat_encNat (n : Nat) (rest : List Char) :
    parseNat (encNat n ++ rest) = some (n, rest) := by
  unfold encNat parseNat
  rw [List.append_assoc]
  have hta : (natChars n ++ ([';'] ++ rest)).takeWhile isAsciiDigit
      = natChars n := by
    rw [List.takeWhile_append_of_pos (natChars_all_digits n),
      List.singleton_append, List.takeWhile_cons_of_neg (by decide),
      List.append_nil]
  have hda : (natChars n ++ ([';'] ++ rest)).dropWhile isAsciiDigit
      = ';' :: rest := by
    rw [List.dropWhile_append_of_pos (natChars_all_digits n),
      List.singleton_append, List.dropWhile_cons_of_neg (by decide)]
  simp only [hta, hda]
  simp [natChars_ne_nil n, digitsToNat_natChars]

/-- Parsing an encoded Int returns it and the rest of the input. -/
theorem parseInt_encInt (i : Int) (rest : List Char) :
    parseInt (encInt i ++ rest) = some (i, rest) := by
  unfold encInt parseInt
  by_cases h : 0 ≤ i
  · rw [if_pos h]
    simp only [List.cons_append, parseNat_encNat, Option.some_bind]
    rw [show ((i.natAbs : Int)) = i by omega]
    simp
  · rw [if_neg h]
    simp only [List.cons_append, parseNat_encNat, Option.some_bind]
    rw [show (-(i.natAbs : Int)) = i by omega]
    simp

/-- Parsing an encoded String returns it and the rest of the input. -/
theorem parseString_encString (s : String) (rest : List Char) :
    parseString (encString s ++ rest) = some (s, rest) := by
  unfold encString parseString
  rw [List.append_assoc, parseNat_encNat, Option.some_bind]
  rw [if_pos (by simp)]
  rw [List.take_left, List.drop_left]

/-- Parsing an encoded Option returns it, given a faithful element parser. -/
theorem parseOption_encOption {α : Type}
    {p : List Char → Option (α × List Char)} {enc : α → List Char}
    (henc : ∀ (a : α) (rest : List Char), p (enc a ++ rest) = some (a, rest)) :
    ∀ (o : Option α) (rest : List Char),
      parseOption p (encOption enc o ++ rest) = some (o, rest) := by
  intro o rest
  cases o with
  | none => simp [encOption, parseOption]
  | some a => simp [encOption, parseOption, henc]

/-- Parsing an encoded pair returns it, given faithful component parsers. -/
theorem parsePair_encPair {α β : Type}
    {pA : List Char → Option (α × List Char)}
    {pB : List Char → Option (β × List Char)}
    {encA : α → List Char} {encB : β → List Char}
    (hA : ∀ a rest, pA (encA a ++ rest) = some (a, rest))
    (hB : ∀ b rest, pB (encB b ++ rest) = some (b, rest))
    (x : α × β) (rest : List Char) :
    parsePair pA pB (encPair encA encB x ++ rest) = some (x, rest) := by
  unfold encPair parsePair
  rw [List.append_assoc, hA, Option.some_bind, hB, Option.some_bind]

/-- Parsing back a written sequence of elements returns them all. -/
theorem parseCount_encAll {α : Type}
    {p : List Char → Option (α × List Char)} {enc : α → List Char}
    (henc : ∀ a rest, p (enc a ++ rest) = some (a, rest)) :
    ∀ (xs : List α) (rest : List Char),
      parseCount p xs.length
        (xs.foldr (fun a acc => enc a ++ acc) [] ++ rest) = some (xs, rest) := by
  intro xs
  induction xs with
  | nil =>
    intro rest
    rfl
  | cons a t ih =>
    intro rest
    simp only [List.foldr_cons, List.length_cons, List.append_assoc]
    rw [parseCount, henc, Option.some_bind, ih, Option.some_bind]

/-- Parsing an encoded list returns it, given a faithful element parser. -/
theorem parseListOf_encListOf {α : Type}
    {p : List Char → Option (α × List Char)} {enc : α → List Char}
    (henc : ∀ a rest, p (enc a ++ rest) = some (a, rest))
    (xs : List α) (rest : List Char) :
    parseListOf p (encListOf enc xs ++ rest) = some (xs, rest) := by
  unfold encListOf parseListOf
  rw [List.append_assoc, parseNat_encNat, Option.some_bind]
  exact parseCount_encAll henc xs rest

/-- Parsing an encoded Fingerprint returns it. -/
theorem parseFingerprint_encFingerprint (fp : Fingerprint)
    (rest : List Char) :
    parseFingerprint (encFingerprint fp ++ rest) = some (fp, rest) := by
  cases fp with
  | byId s => simp [encFingerprint, parseFingerprint, parseString_encString]
  | byLink s => simp [encFingerprint, parseFingerprint, parseString_encString]
  | titleDateHash t pd =>
    simp [encFingerprint, parseFingerprint, List.append_assoc,
      parseString_encString, parseOption_encOption parseString_encString]

/-- Parsing an encoded ChatRecord returns it. -/
theorem parseChat_encChat (c : ChatRecord) (rest : List Char) :
    parseChat (encChat c ++ rest) = some (c, rest) := by
  unfold encChat parseChat
  rw [parseListOf_encListOf parseString_encString, Option.some_bind]

/-- Parsing an encoded Feed returns it. -/
theorem parseFeed_encFeed (f : Feed) (rest : List Char) :
    parseFeed (encFeed f ++ rest) = some (f, rest) := by
  unfold encFeed parseFeed
  simp only [List.append_assoc]
  rw [parseString_encString, Option.some_bind,
    parseString_encString, Option.some_bind,
    parseOption_encOption parseString_encString, Option.some_bind,
    parseOption_encOption parseString_encString, Option.some_bind,
    parseListOf_encListOf parseFingerprint_encFingerprint, Option.some_bind,
    parseNat_encNat, Option.some_bind,
    parseNat_encNat, Option.some_bind,
    parseNat_encNat, Option.some_bind,
    parseListOf_encListOf parseInt_encInt, Option.some_bind]

/-- C3: loading the file written by persisting any Store state returns the
identical Store: the same Feed map (subscriptions, fingerprint sets,
intervals, error counts and all other fields) and the same Chat map. -/
theorem load_persist_roundtrip : ∀ s : Store, load (persist s) = some s := by
  intro s
  unfold persist load
  rw [parseListOf_encListOf
    (parsePair_encPair parseString_encString parseFeed_encFeed) s.feeds _,
    Option.some_bind]
  have h2 := parseListOf_encListOf
    (parsePair_encPair parseInt_encInt parseChat_encChat) s.chats []
  rw [List.append_nil] at h2
  rw [h2, Option.some_bind]
  rfl

/-- Witness for C6: check_interval accepts 300 through the parse
characterisation. -/
theorem check_interval_ok_iff_witness :
    check_interval "300" = Except.ok () :=
  (check_interval_ok_iff "300").1.mpr ⟨300, by rfl, by norm_num⟩

/-- Witness for C3 at a small concrete Store. -/
theorem load_persist_roundtrip_witness :
    load (persist
      ⟨[("http://e/f", ⟨"t", "http://e", some "etag", none,
          [Fingerprint.byId "a"], 300, 0, 9, [44]⟩)],
        [(44, ⟨["http://e/f"]⟩)]⟩) =
      some ⟨[("http://e/f", ⟨"t", "http://e", some "etag", none,
          [Fingerprint.byId "a"], 300, 0, 9, [44]⟩)],
        [(44, ⟨["http://e/f"]⟩)]⟩ :=
  load_persist_roundtrip _
